import Mathlib

/-!
Verification of the vault navigation and rendering subsystem of the
portfolio website (frontend notes browser).

The definitions below are a shallow embedding of the TypeScript source:
the markdown-subset inline renderers (`renderInlineContent`,
`renderInline`, `formatText`, `formatInlineText`), the block renderer
(`NoteContent` in its two variants), the wiki-link resolver
(`handleWikiLinkClick`), and the navigation state machine of the notes
page (`navigateToNote`, `handleBookClick`, `handleCategoryClick`,
`handlePopState`, the search effect, and browser-history pushes).

Strings are modelled as `List Char` inside the renderer so that the
JavaScript regex scans become explicit recursive scanners.  Recursions
that are not structural (a regex scan jumps past each match) take a fuel
argument; the public entry points pass the input length as fuel, which
always suffices because every match consumes at least one character.
-/

namespace Site

/-! ## Inline wiki-link scanning

`renderInlineContent` uses the pattern `\[\[([^\]|]+)(?:\|([^\]]+))?\]\]`;
`renderInline` (note-page variant) uses `\[\[([^\]]+)\]\]`.  Both are
scanned left to right with `RegExp.exec` semantics: the leftmost match is
taken, and scanning resumes immediately after it. -/

/-- A parsed wiki link: the capture groups of the wiki-link pattern.
`target` is group 1, `aliasText` is the optional group 2. -/
structure WikiLink where
  target : List Char
  aliasText : Option (List Char)
deriving DecidableEq, Repr

/-- Character class `[^\]|]` of the target capture group. -/
def isTargetChar (c : Char) : Bool := c ≠ ']' && c ≠ '|'

/-- Character class `[^\]]` of the alias capture group. -/
def isAliasChar (c : Char) : Bool := c ≠ ']'

/-- Attempt to match `\[\[([^\]|]+)(?:\|([^\]]+))?\]\]` at the head of the
input.  Returns the parsed link and the remaining characters.  The
greedy character-class runs make the match deterministic: shrinking a
`[^x]+` run can never let the following literal succeed. -/
def matchWikiAt : List Char → Option (WikiLink × List Char)
  | c1 :: c2 :: cs =>
    if c1 = '[' ∧ c2 = '[' then
      let t := cs.takeWhile isTargetChar
      if t.isEmpty then none
      else
        match cs.dropWhile isTargetChar with
        | '|' :: cs2 =>
          let a := cs2.takeWhile isAliasChar
          if a.isEmpty then none
          else
            match cs2.dropWhile isAliasChar with
            | ']' :: ']' :: rest => some (⟨t, some a⟩, rest)
            | _ => none
        | ']' :: ']' :: rest => some (⟨t, none⟩, rest)
        | _ => none
    else none
  | _ => none

/-- Attempt to match `\[\[([^\]]+)\]\]` (the alias-free pattern of
`renderInline`) at the head of the input. -/
def matchWikiSimpleAt : List Char → Option (List Char × List Char)
  | c1 :: c2 :: cs =>
    if c1 = '[' ∧ c2 = '[' then
      let t := cs.takeWhile isAliasChar
      if t.isEmpty then none
      else
        match cs.dropWhile isAliasChar with
        | ']' :: ']' :: rest => some (t, rest)
        | _ => none
    else none
  | _ => none

/-- Leftmost match of the aliased wiki-link pattern: returns the text
before the match, the match, and the text after it. -/
def findWikiMatch : List Char → Option (List Char × WikiLink × List Char)
  | [] => none
  | c :: cs =>
    match matchWikiAt (c :: cs) with
    | some (l, rest) => some ([], l, rest)
    | none =>
      match findWikiMatch cs with
      | some (p, l, r) => some (c :: p, l, r)
      | none => none

/-- Leftmost match of the alias-free wiki-link pattern. -/
def findWikiSimple : List Char → Option (List Char × List Char × List Char)
  | [] => none
  | c :: cs =>
    match matchWikiSimpleAt (c :: cs) with
    | some (l, rest) => some ([], l, rest)
    | none =>
      match findWikiSimple cs with
      | some (p, l, r) => some (c :: p, l, r)
      | none => none

/-- A piece produced by the wiki-link scan: raw text between matches, or
a matched link. -/
inductive Piece where
  | raw (s : List Char)
  | link (l : WikiLink)
deriving DecidableEq, Repr

/-- The `while ((match = wikiLinkPattern.exec(text)) !== null)` loop of
`renderInlineContent`: raw pieces are emitted only when non-empty,
mirroring the `match.index > lastIndex` / `lastIndex < text.length`
guards.  `fuel` bounds the number of matches; the entry point passes the
input length, which suffices since every match consumes characters. -/
def scanWikiAux : Nat → List Char → List Piece
  | 0, cs => if cs.isEmpty then [] else [Piece.raw cs]
  | fuel + 1, cs =>
    match findWikiMatch cs with
    | none => if cs.isEmpty then [] else [Piece.raw cs]
    | some (p, l, r) =>
      (if p.isEmpty then [] else [Piece.raw p]) ++ Piece.link l :: scanWikiAux fuel r

/-- Same scan loop for the alias-free pattern of `renderInline`; the
matched capture is stored as a target-only link. -/
def scanWikiSimpleAux : Nat → List Char → List Piece
  | 0, cs => if cs.isEmpty then [] else [Piece.raw cs]
  | fuel + 1, cs =>
    match findWikiSimple cs with
    | none => if cs.isEmpty then [] else [Piece.raw cs]
    | some (p, l, r) =>
      (if p.isEmpty then [] else [Piece.raw p]) ++ Piece.link ⟨l, none⟩ :: scanWikiSimpleAux fuel r

/-! ## Inline text formatting (`formatText` / `formatInlineText`)

Three sequential global replacements: `\*\*([^*]+)\*\*` to `<strong>`,
`\*([^*]+)\*` to `<em>`, and an inline-code pattern to `<code>`. -/

/-- Replacement prefix for the bold pattern. -/
def strongOpen : List Char := "<strong class=\"text-[var(--color-text-primary)]\">".data

/-- Replacement suffix for the bold pattern. -/
def strongClose : List Char := "</strong>".data

/-- Replacement prefix for the italic pattern. -/
def emOpen : List Char := "<em>".data

/-- Replacement suffix for the italic pattern. -/
def emClose : List Char := "</em>".data

/-- Replacement prefix for the inline-code pattern. -/
def codeOpen : List Char :=
  "<code class=\"bg-[var(--color-space-700)] px-1 py-0.5 rounded text-sm font-mono text-[var(--color-accent-400)]\">".data

/-- Replacement suffix for the inline-code pattern. -/
def codeClose : List Char := "</code>".data

/-- Match `\*\*([^*]+)\*\*` at the head of the input. -/
def matchBoldAt : List Char → Option (List Char × List Char)
  | c1 :: c2 :: cs =>
    if c1 = '*' ∧ c2 = '*' then
      let t := cs.takeWhile (· ≠ '*')
      if t.isEmpty then none
      else
        match cs.dropWhile (· ≠ '*') with
        | '*' :: '*' :: rest => some (t, rest)
        | _ => none
    else none
  | _ => none

/-- Match `\*([^*]+)\*` at the head of the input. -/
def matchItalicAt : List Char → Option (List Char × List Char)
  | c :: cs =>
    if c = '*' then
      let t := cs.takeWhile (· ≠ '*')
      if t.isEmpty then none
      else
        match cs.dropWhile (· ≠ '*') with
        | '*' :: rest => some (t, rest)
        | _ => none
    else none
  | _ => none

/-- Match the inline-code pattern (backtick, one or more non-backtick
characters, backtick) at the head of the input. -/
def matchCodeAt : List Char → Option (List Char × List Char)
  | c :: cs =>
    if c = '`' then
      let t := cs.takeWhile (· ≠ '`')
      if t.isEmpty then none
      else
        match cs.dropWhile (· ≠ '`') with
        | '`' :: rest => some (t, rest)
        | _ => none
    else none
  | _ => none

/-- Global replacement of the bold pattern with the `<strong>` wrapper. -/
def replaceBoldAux : Nat → List Char → List Char
  | 0, cs => cs
  | _, [] => []
  | fuel + 1, c :: cs =>
    match matchBoldAt (c :: cs) with
    | some (t, rest) => strongOpen ++ t ++ strongClose ++ replaceBoldAux fuel rest
    | none => c :: replaceBoldAux fuel cs

/-- Global replacement of the italic pattern with the `<em>` wrapper. -/
def replaceItalicAux : Nat → List Char → List Char
  | 0, cs => cs
  | _, [] => []
  | fuel + 1, c :: cs =>
    match matchItalicAt (c :: cs) with
    | some (t, rest) => emOpen ++ t ++ emClose ++ replaceItalicAux fuel rest
    | none => c :: replaceItalicAux fuel cs

/-- Global replacement of the inline-code pattern with the `<code>`
wrapper. -/
def replaceCodeAux : Nat → List Char → List Char
  | 0, cs => cs
  | _, [] => []
  | fuel + 1, c :: cs =>
    match matchCodeAt (c :: cs) with
    | some (t, rest) => codeOpen ++ t ++ codeClose ++ replaceCodeAux fuel rest
    | none => c :: replaceCodeAux fuel cs

/-- `formatText` of the note-page renderer: the three `.replace` calls
applied in source order (bold, then italic, then inline code). -/
def formatTextL (cs : List Char) : List Char :=
  let b := replaceBoldAux cs.length cs
  let i := replaceItalicAux b.length b
  replaceCodeAux i.length i

/-- `formatText` lifted to `String`. -/
def formatText (s : String) : String := ⟨formatTextL s.data⟩

/-- `formatInlineText` of the notes-browser renderer: textually the same
three replacements as `formatText`. -/
def formatInlineTextL (cs : List Char) : List Char := formatTextL cs

/-- `formatInlineText` lifted to `String`. -/
def formatInlineText (s : String) : String := ⟨formatInlineTextL s.data⟩

/-! ## The inline renderers -/

/-- An inline render node: a formatted HTML text span
(`dangerouslySetInnerHTML` of `formatText`/`formatInlineText`), or a
clickable link button with its click target and display text. -/
inductive Inline where
  | htmlText (html : List Char)
  | linkButton (target : List Char) (display : List Char)
deriving DecidableEq, Repr

/-- How `renderInlineContent` renders one scanned piece: raw text is
formatted with `formatInlineText`; a link becomes a button whose display
text is the alias when present, else the target (`match[2] || match[1]`). -/
def pieceToInlineContent : Piece → Inline
  | .raw s => .htmlText (formatInlineTextL s)
  | .link l => .linkButton l.target (l.aliasText.getD l.target)

/-- How `renderInline` renders one scanned piece: raw text is formatted
with `formatText`; the whole inner capture is both the click target and
the display text. -/
def pieceToInlinePage : Piece → Inline
  | .raw s => .htmlText (formatTextL s)
  | .link l => .linkButton l.target l.target

/-- `renderInlineContent` (notes browser): scan for aliased wiki links,
format the text between them, and render each link as a button.  When no
parts were produced (empty input) the source falls back to formatting
the whole text. -/
def renderInlineContent (cs : List Char) : List Inline :=
  let ps := scanWikiAux cs.length cs
  let ps := if ps.isEmpty then [Piece.raw cs] else ps
  ps.map pieceToInlineContent

/-- `renderInline` (note-page variant): scan with the alias-free pattern
`\[\[([^\]]+)\]\]`; the whole inner capture is used both as the click
target and as the display text, and surrounding text goes through
`formatText`. -/
def renderInline (cs : List Char) : List Inline :=
  let ps := scanWikiSimpleAux cs.length cs
  let ps := if ps.isEmpty then [Piece.raw cs] else ps
  ps.map pieceToInlinePage

/-! ## Block renderer (`NoteContent`) -/

/-- JavaScript `\s` / `String.prototype.trim` whitespace, restricted to
the ASCII characters that can occur in note text. -/
def jsWhitespace (c : Char) : Bool :=
  c = ' ' || c = '\t' || c = '\n' || c = '\r' || c = '\x0b' || c = '\x0c'

/-- JavaScript `String.prototype.trim`: strip leading and trailing
whitespace. -/
def jsTrim (cs : List Char) : List Char :=
  ((cs.dropWhile jsWhitespace).reverse.dropWhile jsWhitespace).reverse

/-- The ` ``` ` fence prefix. -/
def codeFence : List Char := ['`', '`', '`']

/-- `line.match(/^[-*]\s/)`: an unordered list item marker. -/
def isListLine (cs : List Char) : Bool :=
  match cs with
  | c :: d :: _ => (c = '-' || c = '*') && jsWhitespace d
  | _ => false

/-- `line.match(/^\d+\.\s/)`: when the line starts with digits, a dot and
one whitespace character, return the line with that prefix stripped
(this is what `line.replace(/^\d+\.\s/, "")` yields). -/
def matchOrdered (cs : List Char) : Option (List Char) :=
  let d := cs.takeWhile Char.isDigit
  if d.isEmpty then none
  else
    match cs.dropWhile Char.isDigit with
    | '.' :: c :: rest => if jsWhitespace c then some rest else none
    | _ => none

/-- A block-level render node produced by `NoteContent`. -/
inductive Block where
  | codeBlock (code : List Char)
  | h1 (content : List Inline)
  | h2 (content : List Inline)
  | h3 (content : List Inline)
  | blockquote (content : List Inline)
  | listItem (content : List Inline)
  | orderedItem (content : List Inline)
  | spacer
  | para (content : List Inline)
deriving DecidableEq, Repr

/-- The `lines.forEach` loop of `NoteContent`, parametrised by the inline
renderer (the two source variants differ only in calling
`renderInlineContent` versus `renderInline`).  `inCode`/`buf` carry the
`inCodeBlock`/`codeContent` mutable state; an unterminated fence at end
of input swallows the buffered lines (no block is emitted). -/
def renderBlocks (inline : List Char → List Inline) :
    List (List Char) → Bool → List Char → List Block
  | [], _, _ => []
  | l :: ls, inCode, buf =>
    if l.take 3 = codeFence then
      if inCode then Block.codeBlock buf :: renderBlocks inline ls false buf
      else renderBlocks inline ls true []
    else if inCode then renderBlocks inline ls true (buf ++ l ++ ['\n'])
    else if l.take 4 = "### ".data then Block.h3 (inline (l.drop 4)) :: renderBlocks inline ls false buf
    else if l.take 3 = "## ".data then Block.h2 (inline (l.drop 3)) :: renderBlocks inline ls false buf
    else if l.take 2 = "# ".data then Block.h1 (inline (l.drop 2)) :: renderBlocks inline ls false buf
    else if l.take 2 = "> ".data then Block.blockquote (inline (l.drop 2)) :: renderBlocks inline ls false buf
    else if isListLine l then Block.listItem (inline (l.drop 2)) :: renderBlocks inline ls false buf
    else
      match matchOrdered l with
      | some body => Block.orderedItem (inline body) :: renderBlocks inline ls false buf
      | none =>
        if (jsTrim l).isEmpty then Block.spacer :: renderBlocks inline ls false buf
        else Block.para (inline l) :: renderBlocks inline ls false buf

/-- Result of `NoteContent`: either the fixed no-content placeholder
paragraph, or the rendered block sequence. -/
inductive NoteRender where
  | noContent (msg : String)
  | blocks (bs : List Block)
deriving DecidableEq, Repr

/-- The placeholder text shown for empty notes. -/
def noContentMessage : String := "This note has no content."

/-- `NoteContent` of the notes browser (the variant whose inline pass is
`renderInlineContent`): an empty or whitespace-only content string
(`!content || content.trim() === ""`) short-circuits to the fixed
placeholder; otherwise the content is split on newlines and fed to the
block loop. -/
def NoteContent (content : List Char) : NoteRender :=
  if content.isEmpty || (jsTrim content).isEmpty then .noContent noContentMessage
  else .blocks (renderBlocks renderInlineContent (content.splitOn '\n') false [])

/-- `NoteContent` of the single-note page (the variant whose inline pass
is `renderInline`); the empty-content guard is identical. -/
def NoteContentPage (content : List Char) : NoteRender :=
  if content.isEmpty || (jsTrim content).isEmpty then .noContent noContentMessage
  else .blocks (renderBlocks renderInline (content.splitOn '\n') false [])

/-! ## Data model (lib/api.ts) -/

/-- `NoteMetadata` of the API client.  Optional JSON fields become
`Option`. -/
structure NoteMetadata where
  id : String
  title : String
  category : String
  book : Option String
  file_path : String
  word_count : Nat
deriving DecidableEq, Repr

/-- An `{ id, title }` reference inside `NavigationContext`. -/
structure NoteRef where
  id : String
  title : String
deriving DecidableEq, Repr

/-- An `{ id, title, file_path }` breadcrumb entry. -/
structure CrumbRef where
  id : String
  title : String
  file_path : String
deriving DecidableEq, Repr

/-- `NavigationContext` of a fetched note. -/
structure NavigationContext where
  breadcrumbs : List CrumbRef
  siblings : List NoteRef
  children : List NoteRef
  parent : Option NoteRef
  is_leaf : Bool
  depth : Nat
deriving DecidableEq, Repr

/-- `Note` extends `NoteMetadata` with content, outbound wiki-link
targets, and the optional navigation context. -/
structure Note extends NoteMetadata where
  content : String
  links : List String
  navigation : Option NavigationContext
deriving DecidableEq, Repr

/-- `NoteTree`: the recursive tree node of the vault structure. -/
inductive NoteTree where
  | mk (id : String) (title : String) (file_path : String)
       (book : Option String) (is_root : Bool) (is_leaf : Bool)
       (depth : Nat) (children_count : Nat) (wiki_links : List String)
       (children : List NoteTree)

/-- The id of a `NoteTree` node. -/
def NoteTree.id : NoteTree → String
  | .mk i _ _ _ _ _ _ _ _ _ => i

/-- `BookData`: note count, root trees, and the has-tree flag. -/
structure BookData where
  note_count : Nat
  trees : List NoteTree
  has_tree : Bool

/-- `CategoryData`: counts plus the book map (a JSON object, modelled as
a partial function from book name). -/
structure CategoryData where
  note_count : Nat
  book_count : Nat
  books : String → Option BookData

/-- `VaultStructure`: a JSON object mapping category name to
`CategoryData`, modelled as a partial function. -/
def VaultStructure := String → Option CategoryData

/-! ## Navigation state machine (NotesPage) -/

/-- The coarse view level of the notes browser. -/
inductive ViewLevel where
  | categories
  | books
  | note
deriving DecidableEq, Repr

/-- `NavigationState`: the payload stored in a browser-history entry. -/
structure NavigationState where
  viewLevel : ViewLevel
  selectedCategory : Option String
  selectedBook : Option String
  noteId : Option String
  noteHistoryIds : List String
deriving DecidableEq, Repr

/-- The mutable component state of `NotesPage` (the `useState` fields the
navigation logic reads and writes). -/
structure PageState where
  viewLevel : ViewLevel
  selectedCategory : Option String
  selectedBook : Option String
  currentNote : Option Note
  noteHistory : List Note
  noteLoading : Bool
  isRestoringState : Bool
  searchQuery : String
  searchResults : List NoteMetadata
  isSearching : Bool
deriving DecidableEq, Repr

/-- The initial `useState` values of `NotesPage`. -/
def initialPageState : PageState where
  viewLevel := .categories
  selectedCategory := none
  selectedBook := none
  currentNote := none
  noteHistory := []
  noteLoading := false
  isRestoringState := false
  searchQuery := ""
  searchResults := []
  isSearching := false

/-- A network oracle for `fetchNote`: `none` models a rejected fetch
(non-ok response). -/
def FetchNote := String → Option Note

/-- `pushNavigationState`: appends a history entry unless a popstate
restore is in progress (`if (isRestoringState) return`).  The list
models the sequence of entries the page has stored via
`pushState`/`replaceState`. -/
def pushNavigationState (st : PageState) (pushed : List NavigationState)
    (s : NavigationState) : List NavigationState :=
  if st.isRestoringState then pushed else pushed ++ [s]

/-- `Promise.all(ids.map(id => fetchNote(id)))`: all notes, or `none` as
soon as any fetch fails. -/
def allFetch (fetch : FetchNote) : List String → Option (List Note)
  | [] => some []
  | id :: ids =>
    match fetch id with
    | none => none
    | some n =>
      match allFetch fetch ids with
      | none => none
      | some ns => some (n :: ns)

/-- `resetToCategories`: reset the view state without touching browser
history. -/
def resetToCategories (st : PageState) : PageState :=
  { st with viewLevel := .categories, selectedCategory := none,
            selectedBook := none, currentNote := none, noteHistory := [],
            searchQuery := "" }

/-- `handleCategoryClick`: enter the books panel of a category and push a
`books`-level history entry. -/
def handleCategoryClick (cat : String) (st : PageState)
    (pushed : List NavigationState) : PageState × List NavigationState :=
  let st1 := { st with selectedCategory := some cat, viewLevel := .books,
                       selectedBook := none, currentNote := none,
                       noteHistory := [] }
  (st1, pushNavigationState st1 pushed
    { viewLevel := .books, selectedCategory := some cat, selectedBook := none,
      noteId := none, noteHistoryIds := [] })

/-- `handleBookClick`: enter a book by fetching the first root tree note
(`structure[selectedCategory!]?.books[book]?.trees?.[0]?.id`).  The
history stack is cleared up front; on a missing tree or a failed fetch
the current note is cleared and nothing is pushed. -/
def handleBookClick (fetch : FetchNote) (vault : VaultStructure)
    (book : String) (st : PageState) (pushed : List NavigationState) :
    PageState × List NavigationState :=
  let st1 := { st with selectedBook := some book, viewLevel := .note,
                       noteLoading := true, noteHistory := [] }
  let bookData :=
    match st.selectedCategory with
    | none => none
    | some cat =>
      match vault cat with
      | none => none
      | some cd => cd.books book
  match bookData with
  | none => ({ st1 with currentNote := none, noteLoading := false }, pushed)
  | some bd =>
    match bd.trees.head? with
    | none => ({ st1 with currentNote := none, noteLoading := false }, pushed)
    | some t =>
      match fetch t.id with
      | none => ({ st1 with currentNote := none, noteLoading := false }, pushed)
      | some note =>
        ({ st1 with currentNote := some note, noteLoading := false },
         pushNavigationState st1 pushed
           { viewLevel := .note, selectedCategory := st.selectedCategory,
             selectedBook := some book, noteId := some note.id,
             noteHistoryIds := [] })

/-- `navigateToNote` (wiki-link or child click): the current note is
appended to the in-memory history stack *before* the fetch; on success
the fetched note becomes current and a `note`-level entry carrying the
updated stack ids is pushed; on failure the catch block only logs, so
the already-updated stack stays as it is. -/
def navigateToNote (fetch : FetchNote) (noteId : String) (st : PageState)
    (pushed : List NavigationState) : PageState × List NavigationState :=
  let newHistory :=
    match st.currentNote with
    | some cur => st.noteHistory ++ [cur]
    | none => st.noteHistory
  let st1 := { st with noteLoading := true, noteHistory := newHistory }
  match fetch noteId with
  | none => ({ st1 with noteLoading := false }, pushed)
  | some note =>
    ({ st1 with currentNote := some note, noteLoading := false },
     pushNavigationState st1 pushed
       { viewLevel := .note, selectedCategory := st.selectedCategory,
         selectedBook := st.selectedBook, noteId := some note.id,
         noteHistoryIds := newHistory.map (fun n => n.id) })

/-- `String.prototype.toLowerCase`, modelled characterwise on the ASCII
fragment that note titles use. -/
def jsToLower (s : String) : String := ⟨s.data.map Char.toLower⟩

/-- The wiki-link tie-break of `handleWikiLinkClick`:
`results.find(exact title ∧ same book) || results.find(exact title) ||
results[0]`, or no result at all when the search came back empty. -/
def resolveWikiLink (results : List NoteMetadata) (linkText : String)
    (currentBook : Option String) : Option NoteMetadata :=
  if results.isEmpty then none
  else
    match results.find? (fun r =>
        jsToLower r.title == jsToLower linkText && r.book == currentBook) with
    | some r => some r
    | none =>
      match results.find? (fun r => jsToLower r.title == jsToLower linkText) with
      | some r => some r
      | none => results.head?

/-- `handleWikiLinkClick`: search for the link text (the search outcome
is the `results` argument), resolve by the tie-break, and navigate; an
empty result list is a silent no-op. -/
def handleWikiLinkClick (fetch : FetchNote) (results : List NoteMetadata)
    (linkText : String) (st : PageState) (pushed : List NavigationState) :
    PageState × List NavigationState :=
  match resolveWikiLink results linkText
      (st.currentNote.bind (fun n => n.book)) with
  | none => (st, pushed)
  | some m => navigateToNote fetch m.id st pushed

/-- A search-result card click: jump straight to the note view with an
empty stack.  The fetch is not guarded by try/catch in the source, so a
failed fetch leaves the intermediate state (loading, no push). -/
def searchResultClick (fetch : FetchNote) (m : NoteMetadata) (st : PageState)
    (pushed : List NavigationState) : PageState × List NavigationState :=
  let st1 := { st with selectedCategory := some m.category,
                       selectedBook := m.book, viewLevel := .note,
                       noteHistory := [], noteLoading := true }
  match fetch m.id with
  | none => (st1, pushed)
  | some fullNote =>
    let st2 := { st1 with currentNote := some fullNote, noteLoading := false,
                          searchQuery := "" }
    (st2, pushNavigationState st2 pushed
      { viewLevel := .note, selectedCategory := some m.category,
        selectedBook := m.book, noteId := some fullNote.id,
        noteHistoryIds := [] })

/-- `handlePopState`: restore a stored `NavigationState` (or reset when
the entry carries none).  With a note id present, the current note and
every history id are re-fetched inside one try/catch; any failure clears
both the current note and the stack; the restore guard is released only
after the whole block. -/
def handlePopState (fetch : FetchNote) (navSt : Option NavigationState)
    (st : PageState) : PageState :=
  match navSt with
  | none =>
    { st with viewLevel := .categories, selectedCategory := none,
              selectedBook := none, currentNote := none, noteHistory := [],
              searchQuery := "" }
  | some s =>
    let st1 := { st with viewLevel := s.viewLevel,
                         selectedCategory := s.selectedCategory,
                         selectedBook := s.selectedBook, searchQuery := "" }
    match s.noteId with
    | none =>
      { st1 with currentNote := none, noteHistory := [], noteLoading := false,
                 isRestoringState := false }
    | some nid =>
      match fetch nid with
      | none =>
        { st1 with currentNote := none, noteHistory := [],
                   noteLoading := false, isRestoringState := false }
      | some note =>
        match allFetch fetch s.noteHistoryIds with
        | none =>
          { st1 with currentNote := none, noteHistory := [],
                     noteLoading := false, isRestoringState := false }
        | some notes =>
          { st1 with currentNote := some note, noteHistory := notes,
                     noteLoading := false, isRestoringState := false }

/-- One step of the restore handler, recorded as a trace event: a
`fetchNote` request being issued, or the restore guard flag being set. -/
inductive RestoreEvent where
  | request (id : String)
  | guardSet (b : Bool)
deriving DecidableEq, Repr

/-- The sequence of guard writes and note fetches `handlePopState`
performs for a stored state, in source order: the guard is raised first,
the current note is fetched, then (only if it succeeded) every stored
history id is fetched, and the guard is released last. -/
def restoreTrace (fetch : FetchNote) (s : NavigationState) : List RestoreEvent :=
  RestoreEvent.guardSet true ::
    (match s.noteId with
     | none => [RestoreEvent.guardSet false]
     | some nid =>
       RestoreEvent.request nid ::
         (match fetch nid with
          | none => [RestoreEvent.guardSet false]
          | some _ =>
            s.noteHistoryIds.map RestoreEvent.request ++
              [RestoreEvent.guardSet false]))

/-! ## The notes-page transition system

User interactions and browser events, each carrying the network outcome
it observes.  `navClick`/`wikiClick` fire only in the note view (the
child buttons and wiki-link buttons are rendered only there), and the
books-grid back button only in the books view; the step function guards
them accordingly.  `popState` delivers one of the entries this page
stored (picked by index; an out-of-range index models an entry without a
`notesNav` payload). -/
inductive Event where
  | categoryClick (cat : String)
  | bookClick (book : String) (fetch : FetchNote)
  | navClick (id : String) (fetch : FetchNote)
  | wikiClick (linkText : String) (results : List NoteMetadata) (fetch : FetchNote)
  | resultClick (m : NoteMetadata) (fetch : FetchNote)
  | breadcrumbBooksClick
  | backToCategoriesClick
  | resetClick
  | popState (i : Nat) (fetch : FetchNote)
  | queryChange (q : String) (results : List NoteMetadata)

/-- The whole client-side system: the page state, the fetched vault
structure, and every navigation entry stored in browser history. -/
structure Sys where
  page : PageState
  vault : VaultStructure
  pushed : List NavigationState

/-- The state after mount: initial component state, plus the initial
`categories` entry stored with `replaceState`. -/
def initSys (vault : VaultStructure) : Sys where
  page := initialPageState
  vault := vault
  pushed := [{ viewLevel := .categories, selectedCategory := none,
               selectedBook := none, noteId := none, noteHistoryIds := [] }]

/-- The breadcrumb button that returns to the books panel: clears the
selected book, the current note and the stack (no push). -/
def breadcrumbBooks (st : PageState) : PageState :=
  { st with viewLevel := .books, selectedBook := none, currentNote := none,
            noteHistory := [] }

/-- The books-grid back button: returns to categories; it only resets
the view level and category (rendered only while the books grid is
shown). -/
def backToCategories (st : PageState) : PageState :=
  { st with viewLevel := .categories, selectedCategory := none }

/-- The search effect body applied to the terminal state of one query
change: a query shorter than 2 characters clears the results
synchronously without a request; otherwise the debounced fetch runs and
stores its results (an empty list when the search request fails). -/
def applySearchQuery (q : String) (results : List NoteMetadata)
    (st : PageState) : PageState :=
  if q.length < 2 then
    { st with searchQuery := q, searchResults := [], isSearching := false }
  else
    { st with searchQuery := q, searchResults := results, isSearching := false }

/-- One transition of the notes page. -/
def step (sys : Sys) : Event → Sys
  | .categoryClick cat =>
    let (p, h) := handleCategoryClick cat sys.page sys.pushed
    { sys with page := p, pushed := h }
  | .bookClick book fetch =>
    let (p, h) := handleBookClick fetch sys.vault book sys.page sys.pushed
    { sys with page := p, pushed := h }
  | .navClick id fetch =>
    if sys.page.viewLevel = .note then
      let (p, h) := navigateToNote fetch id sys.page sys.pushed
      { sys with page := p, pushed := h }
    else sys
  | .wikiClick linkText results fetch =>
    if sys.page.viewLevel = .note then
      let (p, h) := handleWikiLinkClick fetch results linkText sys.page sys.pushed
      { sys with page := p, pushed := h }
    else sys
  | .resultClick m fetch =>
    let (p, h) := searchResultClick fetch m sys.page sys.pushed
    { sys with page := p, pushed := h }
  | .breadcrumbBooksClick => { sys with page := breadcrumbBooks sys.page }
  | .backToCategoriesClick =>
    if sys.page.viewLevel = .books then
      { sys with page := backToCategories sys.page }
    else sys
  | .resetClick => { sys with page := resetToCategories sys.page }
  | .popState i fetch =>
    { sys with page := handlePopState fetch (sys.pushed.get? i) sys.page }
  | .queryChange q results =>
    { sys with page := applySearchQuery q results sys.page }

/-- Run the notes page from mount through a sequence of events. -/
def run (vault : VaultStructure) (es : List Event) : Sys :=
  es.foldl step (initSys vault)

/-! ## Search effect in isolation (both NotesPage variants share it) -/

/-- One query change of the search effect: the new results list together
with the request it issued, if any.  A query shorter than 2 characters
returns early after clearing the results, issuing nothing. -/
def searchEffectStep (fetch : String → List NoteMetadata) (q : String) :
    List NoteMetadata × Option String :=
  if q.length < 2 then ([], none) else (fetch q, some q)

/-- Fold the search effect over a sequence of query values, accumulating
the results state and every request issued. -/
def runSearch (fetch : String → List NoteMetadata) (qs : List String) :
    List NoteMetadata × List String :=
  qs.foldl
    (fun acc q =>
      let r := searchEffectStep fetch q
      (r.1, acc.2 ++ r.2.toList))
    ([], [])

/-! ## Decompositions of texts into wiki links and surrounding text

To state the renderer claims for an arbitrary note text containing `N`
wiki-links, a text is presented as an alternation of link-free segments
and well-formed wiki-link occurrences; `assemble` rebuilds the concrete
character sequence from such a decomposition. -/

/-- The concrete characters of the optional `|alias` part. -/
def aliasPart : Option (List Char) → List Char
  | none => []
  | some a => '|' :: a

/-- The concrete characters of a wiki link: `[[target]]` or
`[[target|alias]]`. -/
def linkSource (l : WikiLink) : List Char :=
  '[' :: '[' :: (l.target ++ aliasPart l.aliasText ++ [']', ']'])

/-- The raw inner text of a wiki link (everything between `[[` and
`]]`), which is what the alias-free pattern of `renderInline`
captures. -/
def innerText (l : WikiLink) : List Char := l.target ++ aliasPart l.aliasText

/-- A segment of text containing no `[` cannot start or contain a
wiki-link match. -/
@[reducible] def NoBracket (t : List Char) : Prop := ∀ c ∈ t, c ≠ '['

/-- Well-formedness of the optional alias: non-empty and within the
`[^\]]` class. -/
@[reducible] def WFAlias : Option (List Char) → Prop
  | none => True
  | some a => a ≠ [] ∧ ∀ c ∈ a, isAliasChar c

/-- Well-formedness of a wiki link as written in a note: non-empty
target within `[^\]|]`, and a well-formed alias when present. -/
@[reducible] def WFLink (l : WikiLink) : Prop :=
  (l.target ≠ [] ∧ ∀ c ∈ l.target, isTargetChar c) ∧ WFAlias l.aliasText

instance decidableWFAlias (o : Option (List Char)) : Decidable (WFAlias o) :=
  match o with
  | none => isTrue trivial
  | some _ => inferInstanceAs (Decidable (_ ∧ _))

instance decidableWFLink (l : WikiLink) : Decidable (WFLink l) :=
  inferInstanceAs (Decidable (_ ∧ _))

/-- Rebuild the note text from a leading segment and an alternating
sequence of links and following segments. -/
def assemble : List Char → List (WikiLink × List Char) → List Char
  | t0, [] => t0
  | t0, (l, t) :: segs => t0 ++ linkSource l ++ assemble t segs

/-- Well-formedness of a decomposition: every link is well formed and
every inter-link segment is bracket-free. -/
@[reducible] def WFSegs (segs : List (WikiLink × List Char)) : Prop :=
  ∀ p ∈ segs, WFLink p.1 ∧ NoBracket p.2

instance decidableWFSegs (segs : List (WikiLink × List Char)) :
    Decidable (WFSegs segs) :=
  inferInstanceAs (Decidable (∀ p ∈ segs, _ ∧ _))

/-- The piece list the aliased scan produces on an assembled text
(empty raw pieces dropped, exactly one link piece per decomposition
link). -/
def piecesSpec : List Char → List (WikiLink × List Char) → List Piece
  | t0, [] => if t0.isEmpty then [] else [Piece.raw t0]
  | t0, (l, t) :: segs =>
    (if t0.isEmpty then [] else [Piece.raw t0]) ++ Piece.link l :: piecesSpec t segs

/-- The piece list the alias-free scan produces on an assembled text:
one link piece per decomposition link, carrying the raw inner text. -/
def piecesSpecSimple : List Char → List (WikiLink × List Char) → List Piece
  | t0, [] => if t0.isEmpty then [] else [Piece.raw t0]
  | t0, (l, t) :: segs =>
    (if t0.isEmpty then [] else [Piece.raw t0]) ++
      Piece.link ⟨innerText l, none⟩ :: piecesSpecSimple t segs

/-- Extract the (target, display) of a link unit. -/
def inlineLink : Inline → Option (List Char × List Char)
  | .linkButton t d => some (t, d)
  | _ => none

/-- Extract the html of a formatted text span. -/
def inlineHtml : Inline → Option (List Char)
  | .htmlText h => some h
  | _ => none

/-! ## Sample data used by concrete witnesses -/

/-- A concrete note used by the closed witness theorems. -/
def sampleNote (i : String) (t : String) (bk : Option String) : Note where
  id := i
  title := t
  category := "Science"
  book := bk
  file_path := i ++ ".md"
  word_count := 10
  content := "hello"
  links := []
  navigation := none

/-- Concrete metadata used by the closed witness theorems. -/
def sampleMeta (i : String) (t : String) (bk : Option String) : NoteMetadata where
  id := i
  title := t
  category := "Science"
  book := bk
  file_path := i ++ ".md"
  word_count := 10

/-! # Theorems -/

/-! ## Generic list scanning lemmas -/

theorem takeWhile_append_all {p : Char → Bool} {l1 : List Char}
    (h : ∀ x ∈ l1, p x) (l2 : List Char) :
    (l1 ++ l2).takeWhile p = l1 ++ l2.takeWhile p := by
  induction l1 with
  | nil => simp
  | cons a l ih => simp_all [List.takeWhile_cons]

theorem dropWhile_append_all {p : Char → Bool} {l1 : List Char}
    (h : ∀ x ∈ l1, p x) (l2 : List Char) :
    (l1 ++ l2).dropWhile p = l2.dropWhile p := by
  induction l1 with
  | nil => simp
  | cons a l ih => simp_all [List.dropWhile_cons]

theorem find?_of_unique {α} (p : α → Bool) (l : List α) (r : α)
    (hm : r ∈ l) (hp : p r) (hu : ∀ x ∈ l, p x → x = r) :
    l.find? p = some r := by
  induction l with
  | nil => cases hm
  | cons a l ih =>
    by_cases ha : p a
    · have : a = r := hu a (List.mem_cons_self a l) ha
      subst this
      rw [List.find?_cons_of_pos _ ha]
    · rw [List.find?_cons_of_neg _ (by simpa using ha)]
      rcases List.mem_cons.mp hm with rfl | hm'
      · exact absurd hp ha
      · exact ih hm' (fun x hx px => hu x (List.mem_cons_of_mem _ hx) px)

/-! ## C10: empty / whitespace-only note content -/

theorem jsTrim_eq_nil {cs : List Char} (h : ∀ c ∈ cs, jsWhitespace c) :
    jsTrim cs = [] := by
  have h1 : cs.dropWhile jsWhitespace = [] := List.dropWhile_eq_nil_iff.mpr h
  simp [jsTrim, h1]

/-- C10: for every note whose content is empty or whitespace-only, both
`NoteContent` variants bypass the markdown block pipeline and produce
the single fixed placeholder "This note has no content." with no blocks
at all. -/
theorem noteContent_whitespace_placeholder (cs : List Char)
    (h : ∀ c ∈ cs, jsWhitespace c) :
    NoteContent cs = NoteRender.noContent noContentMessage ∧
      NoteContentPage cs = NoteRender.noContent noContentMessage := by
  have h1 : jsTrim cs = [] := jsTrim_eq_nil h
  constructor <;> simp [NoteContent, NoteContentPage, h1]

/-- C10 witness: a concrete whitespace-only content string renders as
the placeholder. -/
theorem noteContent_whitespace_placeholder_witness :
    NoteContent ("  \n \t ".data) = NoteRender.noContent noContentMessage ∧
      NoteContentPage ("  \n \t ".data) = NoteRender.noContent noContentMessage :=
  noteContent_whitespace_placeholder ("  \n \t ".data) (by decide)

/-! ## C9: `formatText` is the identity on markdown-free strings -/

theorem matchBoldAt_eq_none {c : Char} (h : c ≠ '*') (cs : List Char) :
    matchBoldAt (c :: cs) = none := by
  cases cs with
  | nil => rfl
  | cons d ds => simp [matchBoldAt, h]

theorem matchItalicAt_eq_none {c : Char} (h : c ≠ '*') (cs : List Char) :
    matchItalicAt (c :: cs) = none := by
  simp [matchItalicAt, h]

theorem matchCodeAt_eq_none {c : Char} (h : c ≠ '`') (cs : List Char) :
    matchCodeAt (c :: cs) = none := by
  simp [matchCodeAt, h]

theorem replaceBoldAux_id :
    ∀ (fuel : Nat) (cs : List Char), (∀ x ∈ cs, x ≠ '*') →
      replaceBoldAux fuel cs = cs
  | 0, cs, _ => by cases cs <;> rfl
  | _ + 1, [], _ => rfl
  | fuel + 1, c :: cs, h => by
    have hc : c ≠ '*' := h c (List.mem_cons_self c cs)
    rw [replaceBoldAux, matchBoldAt_eq_none hc,
      replaceBoldAux_id fuel cs (fun x hx => h x (List.mem_cons_of_mem _ hx))]

theorem replaceItalicAux_id :
    ∀ (fuel : Nat) (cs : List Char), (∀ x ∈ cs, x ≠ '*') →
      replaceItalicAux fuel cs = cs
  | 0, cs, _ => by cases cs <;> rfl
  | _ + 1, [], _ => rfl
  | fuel + 1, c :: cs, h => by
    have hc : c ≠ '*' := h c (List.mem_cons_self c cs)
    rw [replaceItalicAux, matchItalicAt_eq_none hc,
      replaceItalicAux_id fuel cs (fun x hx => h x (List.mem_cons_of_mem _ hx))]

theorem replaceCodeAux_id :
    ∀ (fuel : Nat) (cs : List Char), (∀ x ∈ cs, x ≠ '`') →
      replaceCodeAux fuel cs = cs
  | 0, cs, _ => by cases cs <;> rfl
  | _ + 1, [], _ => rfl
  | fuel + 1, c :: cs, h => by
    have hc : c ≠ '`' := h c (List.mem_cons_self c cs)
    rw [replaceCodeAux, matchCodeAt_eq_none hc,
      replaceCodeAux_id fuel cs (fun x hx => h x (List.mem_cons_of_mem _ hx))]

theorem formatTextL_id {cs : List Char} (h : ∀ c ∈ cs, c ≠ '*' ∧ c ≠ '`') :
    formatTextL cs = cs := by
  have h1 : replaceBoldAux cs.length cs = cs :=
    replaceBoldAux_id _ _ (fun x hx => (h x hx).1)
  have h2 : replaceItalicAux cs.length cs = cs :=
    replaceItalicAux_id _ _ (fun x hx => (h x hx).1)
  have h3 : replaceCodeAux cs.length cs = cs :=
    replaceCodeAux_id _ _ (fun x hx => (h x hx).2)
  simp [formatTextL, h1, h2, h3]

/-- C9: on a string with no markdown-special characters (no `*` and no
backtick, hence no substring matching the bold, italic or inline-code
patterns), `formatText` is the identity. -/
theorem formatText_id (s : String) (h : ∀ c ∈ s.data, c ≠ '*' ∧ c ≠ '`') :
    formatText s = s := by
  cases s with
  | mk d => simpa [formatText] using congrArg String.mk (formatTextL_id h)

/-- C9 witness: `formatText` leaves a concrete markdown-free string
unchanged. -/
theorem formatText_id_witness : formatText "hello world" = "hello world" :=
  formatText_id "hello world" (by decide)

/-! ## C8: short search queries never issue a request and clear results -/

theorem runSearch_requests_aux (fetch : String → List NoteMetadata) :
    ∀ (qs : List String) (acc : List NoteMetadata × List String),
      (∀ q ∈ acc.2, 2 ≤ q.length) →
      ∀ q ∈ (qs.foldl
          (fun acc q =>
            let r := searchEffectStep fetch q
            (r.1, acc.2 ++ r.2.toList)) acc).2, 2 ≤ q.length
  | [], acc, hacc => hacc
  | q0 :: qs, acc, hacc => by
    refine runSearch_requests_aux fetch qs _ ?_
    intro q hq
    simp only [searchEffectStep] at hq
    by_cases hlen : q0.length < 2
    · simp [hlen] at hq
      exact hacc q hq
    · simp [hlen] at hq
      rcases hq with hq | rfl
      · exact hacc q hq
      · omega

/-- C8: the search effect never issues a request for a query shorter
than 2 characters (every issued request has length at least 2), and a
query change to a short query — in particular clearing the query —
always leaves the results list empty. -/
theorem search_short_query_spec (fetch : String → List NoteMetadata)
    (qs : List String) :
    (∀ q ∈ (runSearch fetch qs).2, 2 ≤ q.length) ∧
      (∀ q : String, q.length < 2 → (runSearch fetch (qs ++ [q])).1 = []) := by
  constructor
  · exact runSearch_requests_aux fetch qs ([], []) (by simp)
  · intro q hq
    unfold runSearch
    rw [List.foldl_append]
    simp [searchEffectStep, hq]

/-- C8 witness: after a real search for "ab", clearing the query empties
the results, and the only issued request has length 2. -/
theorem search_short_query_spec_witness :
    (runSearch (fun _ => [sampleMeta "n1" "Atomic Habits" none]) (["ab"] ++ [""])).1 = [] :=
  (search_short_query_spec (fun _ => [sampleMeta "n1" "Atomic Habits" none]) ["ab"]).2
    "" (by decide)

/-! ## C3: wiki-link resolution tie-break -/

/-- C3: resolving a clicked wiki-link target.  An empty search result is
a silent no-op (no navigation, state unchanged); otherwise the target is
the first result with a case-insensitive title match in the current
note's book, else the first result with a case-insensitive title match,
else the first result in the search service's order; a target whose
title match is unique within the current book always resolves to that
note.  All tie-break clauses are stated for `resolveWikiLink`, the
resolution function `handleWikiLinkClick` applies before navigating. -/
theorem wikiLink_tiebreak_spec (results : List NoteMetadata)
    (linkText : String) (book : Option String) (fetch : FetchNote)
    (st : PageState) (pushed : List NavigationState) :
    (resolveWikiLink [] linkText book = none) ∧
    (handleWikiLinkClick fetch [] linkText st pushed = (st, pushed)) ∧
    (∀ r, results.find? (fun r =>
        jsToLower r.title == jsToLower linkText && r.book == book) = some r →
      resolveWikiLink results linkText book = some r) ∧
    (results.find? (fun r =>
        jsToLower r.title == jsToLower linkText && r.book == book) = none →
      ∀ r, results.find? (fun r => jsToLower r.title == jsToLower linkText) = some r →
        resolveWikiLink results linkText book = some r) ∧
    (results.find? (fun r =>
        jsToLower r.title == jsToLower linkText && r.book == book) = none →
      results.find? (fun r => jsToLower r.title == jsToLower linkText) = none →
        resolveWikiLink results linkText book = results.head?) ∧
    (∀ r ∈ results, (jsToLower r.title == jsToLower linkText && r.book == book) →
      (∀ x ∈ results, (jsToLower x.title == jsToLower linkText && x.book == book) → x = r) →
        resolveWikiLink results linkText book = some r) ∧
    (∀ r, resolveWikiLink results linkText
          (st.currentNote.bind (fun n => n.book)) = some r →
        handleWikiLinkClick fetch results linkText st pushed =
          navigateToNote fetch r.id st pushed) := by
  refine ⟨by simp [resolveWikiLink], by simp [handleWikiLinkClick, resolveWikiLink],
    ?_, ?_, ?_, ?_, ?_⟩
  · intro r h1
    have hne : ¬ results.isEmpty := by
      cases results with
      | nil => simp at h1
      | cons a l => simp
    simp [resolveWikiLink, hne, h1]
  · intro h1 r h2
    have hne : ¬ results.isEmpty := by
      cases results with
      | nil => simp at h2
      | cons a l => simp
    simp [resolveWikiLink, hne, h1, h2]
  · intro h1 h2
    cases results with
    | nil => simp [resolveWikiLink]
    | cons a l => simp [resolveWikiLink, h1, h2]
  · intro r hm hp hu
    have h1 : results.find? (fun r =>
        jsToLower r.title == jsToLower linkText && r.book == book) = some r :=
      find?_of_unique _ results r hm hp hu
    have hne : ¬ results.isEmpty := by
      cases results with
      | nil => cases hm
      | cons a l => simp
    simp [resolveWikiLink, hne, h1]
  · intro r h1
    simp [handleWikiLinkClick, h1]

/-- C3 witness: with two same-titled notes in different books, the one
in the current note's book wins even when listed second, and an empty
result list is a no-op. -/
theorem wikiLink_tiebreak_spec_witness :
    resolveWikiLink
        [sampleMeta "o" "Habits" (some "Other"), sampleMeta "s" "Habits" (some "Sapiens")]
        "habits" (some "Sapiens") =
      some (sampleMeta "s" "Habits" (some "Sapiens")) :=
  (wikiLink_tiebreak_spec
      [sampleMeta "o" "Habits" (some "Other"), sampleMeta "s" "Habits" (some "Sapiens")]
      "habits" (some "Sapiens") (fun _ => none) initialPageState []).2.2.1
    (sampleMeta "s" "Habits" (some "Sapiens")) (by decide)

/-! ## C4: failed note-to-note navigation -/

/-- C4 counterexample: with a current note displayed, a `navigateToNote`
whose fetch fails leaves the in-memory history stack changed (the
previous current note was appended before the fetch and is not rolled
back), contradicting the claim that the stack is the same as before the
failed operation. -/
theorem navigateToNote_failure_mutates_history :
    (navigateToNote (fun _ => none) "c1"
        { initialPageState with
            viewLevel := .note,
            currentNote := some (sampleNote "root" "Root" (some "Sapiens")) }
        []).1.noteHistory ≠
      ({ initialPageState with
            viewLevel := .note,
            currentNote := some (sampleNote "root" "Root" (some "Sapiens")) } :
          PageState).noteHistory := by
  decide

/-- C4 amended: when the fetch of the target note fails, no browser
history entry is pushed, the current note is unchanged and the loading
flag is reset, but the operation is not rolled back completely: the
previous current note (when there was one) has already been appended to
the in-memory history stack and stays there. -/
theorem navigateToNote_failure_spec (fetch : FetchNote) (id : String)
    (st : PageState) (pushed : List NavigationState) (hf : fetch id = none) :
    (navigateToNote fetch id st pushed).1.currentNote = st.currentNote ∧
    (navigateToNote fetch id st pushed).2 = pushed ∧
    (navigateToNote fetch id st pushed).1.noteHistory =
      st.noteHistory ++ st.currentNote.toList ∧
    (navigateToNote fetch id st pushed).1.noteLoading = false := by
  cases hc : st.currentNote <;> simp [navigateToNote, hf, hc]

/-- C4 witness for the amended statement, at a concrete failing fetch. -/
theorem navigateToNote_failure_spec_witness :
    (navigateToNote (fun _ => none) "c1"
        { initialPageState with
            viewLevel := .note,
            currentNote := some (sampleNote "root" "Root" (some "Sapiens")) }
        []).1.noteHistory =
      [] ++ (some (sampleNote "root" "Root" (some "Sapiens"))).toList :=
  (navigateToNote_failure_spec (fun _ => none) "c1"
      { initialPageState with
          viewLevel := .note,
          currentNote := some (sampleNote "root" "Root" (some "Sapiens")) }
      [] rfl).2.2.1

/-! ## C5: successful note-to-note navigation -/

/-- C5: a successful note-to-note transition while a current note is
displayed appends the previous current note to the in-memory history
stack, makes the fetched note current, and pushes a `NavigationState`
carrying exactly the ids of the updated stack in order with the new
note's id as current. -/
theorem navigateToNote_success_spec (fetch : FetchNote) (id : String)
    (st : PageState) (pushed : List NavigationState) (note prev : Note)
    (hf : fetch id = some note) (hc : st.currentNote = some prev)
    (hr : st.isRestoringState = false) :
    (navigateToNote fetch id st pushed).1.noteHistory =
      st.noteHistory ++ [prev] ∧
    (navigateToNote fetch id st pushed).1.currentNote = some note ∧
    (navigateToNote fetch id st pushed).2 = pushed ++
      [{ viewLevel := .note, selectedCategory := st.selectedCategory,
         selectedBook := st.selectedBook, noteId := some note.id,
         noteHistoryIds := (st.noteHistory ++ [prev]).map (fun n => n.id) }] := by
  simp [navigateToNote, hf, hc, pushNavigationState, hr]

/-- C5 witness at concrete notes: navigating from `root` to `c1` pushes
`root` onto the stack and stores `[root.id]` in the pushed state. -/
theorem navigateToNote_success_spec_witness :
    (navigateToNote (fun i => if i = "c1" then some (sampleNote "c1" "Child" (some "Sapiens")) else none)
        "c1"
        { initialPageState with
            viewLevel := .note,
            currentNote := some (sampleNote "root" "Root" (some "Sapiens")) }
        []).1.noteHistory = [] ++ [sampleNote "root" "Root" (some "Sapiens")] :=
  (navigateToNote_success_spec
      (fun i => if i = "c1" then some (sampleNote "c1" "Child" (some "Sapiens")) else none)
      "c1"
      { initialPageState with
          viewLevel := .note,
          currentNote := some (sampleNote "root" "Root" (some "Sapiens")) }
      [] (sampleNote "c1" "Child" (some "Sapiens"))
      (sampleNote "root" "Root" (some "Sapiens")) rfl rfl rfl).1

/-! ## C6: book selection -/

/-- C6: selecting a book whose first root tree note exists and fetches
successfully makes that note current, clears the history stack, and
pushes a note-level `NavigationState` with the selected category and
book, the fetched note's id, and an empty history-id list. -/
theorem handleBookClick_spec (fetch : FetchNote) (vault : VaultStructure)
    (book cat : String) (cd : CategoryData) (bd : BookData) (t : NoteTree)
    (ts : List NoteTree) (note : Note) (st : PageState)
    (pushed : List NavigationState)
    (hcat : st.selectedCategory = some cat) (hv : vault cat = some cd)
    (hb : cd.books book = some bd) (ht : bd.trees = t :: ts)
    (hf : fetch t.id = some note) (hr : st.isRestoringState = false) :
    (handleBookClick fetch vault book st pushed).1.currentNote = some note ∧
    (handleBookClick fetch vault book st pushed).1.noteHistory = [] ∧
    (handleBookClick fetch vault book st pushed).1.viewLevel = .note ∧
    (handleBookClick fetch vault book st pushed).1.selectedBook = some book ∧
    (handleBookClick fetch vault book st pushed).2 = pushed ++
      [{ viewLevel := .note, selectedCategory := some cat,
         selectedBook := some book, noteId := some note.id,
         noteHistoryIds := [] }] := by
  simp [handleBookClick, hcat, hv, hb, ht, hf, pushNavigationState, hr]

/-- C6 witness at a one-book vault: clicking "Sapiens" loads its root
tree note and pushes the matching state. -/
theorem handleBookClick_spec_witness :
    (handleBookClick
        (fun i => if i = "root" then some (sampleNote "root" "Root" (some "Sapiens")) else none)
        (fun c => if c = "Science" then
          some { note_count := 3, book_count := 1,
                 books := fun b => if b = "Sapiens" then
                   some { note_count := 3,
                          trees := [NoteTree.mk "root" "Root" "root.md" (some "Sapiens")
                                      true false 0 2 [] []],
                          has_tree := true }
                  else none }
         else none)
        "Sapiens"
        { initialPageState with viewLevel := .books, selectedCategory := some "Science" }
        []).1.currentNote = some (sampleNote "root" "Root" (some "Sapiens")) :=
  (handleBookClick_spec
      (fun i => if i = "root" then some (sampleNote "root" "Root" (some "Sapiens")) else none)
      (fun c => if c = "Science" then
        some { note_count := 3, book_count := 1,
               books := fun b => if b = "Sapiens" then
                 some { note_count := 3,
                        trees := [NoteTree.mk "root" "Root" "root.md" (some "Sapiens")
                                    true false 0 2 [] []],
                        has_tree := true }
                else none }
       else none)
      "Sapiens" "Science"
      { note_count := 3, book_count := 1,
        books := fun b => if b = "Sapiens" then
          some { note_count := 3,
                 trees := [NoteTree.mk "root" "Root" "root.md" (some "Sapiens")
                             true false 0 2 [] []],
                 has_tree := true }
         else none }
      { note_count := 3,
        trees := [NoteTree.mk "root" "Root" "root.md" (some "Sapiens") true false 0 2 [] []],
        has_tree := true }
      (NoteTree.mk "root" "Root" "root.md" (some "Sapiens") true false 0 2 [] [])
      [] (sampleNote "root" "Root" (some "Sapiens"))
      { initialPageState with viewLevel := .books, selectedCategory := some "Science" }
      [] rfl rfl rfl rfl rfl rfl).1

/-! ## C2: popstate restore completes or abandons atomically -/

theorem allFetch_none_of_failure (fetch : FetchNote) :
    ∀ (ids : List String), (∃ id ∈ ids, fetch id = none) →
      allFetch fetch ids = none
  | [], h => by simp at h
  | id :: ids, h => by
    rcases h with ⟨i, hi, hfi⟩
    rcases List.mem_cons.mp hi with rfl | hi'
    · simp [allFetch, hfi]
    · unfold allFetch
      cases fetch id with
      | none => rfl
      | some n => rw [allFetch_none_of_failure fetch ids ⟨i, hi', hfi⟩]

/-- C2: during a popstate restore carrying a note id, every note fetch
the handler issues (the current note and, when it succeeded, every
stored history id in order) appears in the trace strictly before the
single release of the restore guard, which is the last event; if the
current-note fetch or any history fetch fails, the terminal state has
the current note and the in-memory history stack cleared together; and
whenever the terminal state holds a current note, the history stack is
fully restored from the stored ids.  The guard is released (false) in
every terminal state. -/
theorem handlePopState_restore_spec (fetch : FetchNote) (s : NavigationState)
    (st : PageState) (nid : String) (h : s.noteId = some nid) :
    (∃ reqs, restoreTrace fetch s =
        RestoreEvent.guardSet true :: reqs ++ [RestoreEvent.guardSet false] ∧
        ∀ e ∈ reqs, ∃ id, e = RestoreEvent.request id) ∧
    ((fetch nid = none ∨ ∃ id ∈ s.noteHistoryIds, fetch id = none) →
      (handlePopState fetch (some s) st).currentNote = none ∧
        (handlePopState fetch (some s) st).noteHistory = []) ∧
    (∀ n, (handlePopState fetch (some s) st).currentNote = some n →
      fetch nid = some n ∧
        allFetch fetch s.noteHistoryIds =
          some (handlePopState fetch (some s) st).noteHistory) ∧
    (handlePopState fetch (some s) st).isRestoringState = false := by
  refine ⟨?_, ?_, ?_, ?_⟩
  · cases hf : fetch nid with
    | none =>
      exact ⟨[RestoreEvent.request nid], by simp [restoreTrace, h, hf], by simp⟩
    | some n =>
      refine ⟨RestoreEvent.request nid :: s.noteHistoryIds.map RestoreEvent.request,
        by simp [restoreTrace, h, hf], ?_⟩
      intro e he
      rcases List.mem_cons.mp he with rfl | he'
      · exact ⟨nid, rfl⟩
      · rcases List.mem_map.mp he' with ⟨i, _, rfl⟩
        exact ⟨i, rfl⟩
  · rintro (hf | hf)
    · simp [handlePopState, h, hf]
    · cases hcur : fetch nid with
      | none => simp [handlePopState, h, hcur]
      | some n =>
        have hall : allFetch fetch s.noteHistoryIds = none :=
          allFetch_none_of_failure fetch _ hf
        simp [handlePopState, h, hcur, hall]
  · intro n hn
    cases hcur : fetch nid with
    | none => simp [handlePopState, h, hcur] at hn
    | some m =>
      cases hall : allFetch fetch s.noteHistoryIds with
      | none => simp [handlePopState, h, hcur, hall] at hn
      | some notes =>
        simp_all [handlePopState, h, hcur, hall]
  · cases hcur : fetch nid with
    | none => simp [handlePopState, h, hcur]
    | some m =>
      cases hall : allFetch fetch s.noteHistoryIds with
      | none => simp [handlePopState, h, hcur, hall]
      | some notes => simp [handlePopState, h, hcur, hall]

/-- C2 witness: a concrete restore whose history fetch fails clears both
the current note and the stack. -/
theorem handlePopState_restore_spec_witness :
    (handlePopState
        (fun i => if i = "root" then some (sampleNote "root" "Root" (some "Sapiens")) else none)
        (some { viewLevel := .note, selectedCategory := some "Science",
                selectedBook := some "Sapiens", noteId := some "root",
                noteHistoryIds := ["ghost"] })
        initialPageState).currentNote = none :=
  ((handlePopState_restore_spec
      (fun i => if i = "root" then some (sampleNote "root" "Root" (some "Sapiens")) else none)
      { viewLevel := .note, selectedCategory := some "Science",
        selectedBook := some "Sapiens", noteId := some "root",
        noteHistoryIds := ["ghost"] }
      initialPageState "root" rfl).2.1
    (Or.inr ⟨"ghost", by decide, rfl⟩)).1

/-! ## C7: the history stack is empty outside the note view -/

/-- Invariant on the page state: outside the note view there is no
in-memory note history and no current note. -/
def pageInv (p : PageState) : Prop :=
  p.viewLevel ≠ ViewLevel.note → p.noteHistory = [] ∧ p.currentNote = none

/-- Invariant on stored navigation states: an entry carrying a note id
was pushed from the note view. -/
def navInv (s : NavigationState) : Prop :=
  s.noteId ≠ none → s.viewLevel = ViewLevel.note

/-- Invariant of the whole system. -/
def sysInv (sys : Sys) : Prop :=
  pageInv sys.page ∧ ∀ s ∈ sys.pushed, navInv s

theorem initSys_inv (vault : VaultStructure) : sysInv (initSys vault) := by
  constructor
  · intro _
    exact ⟨rfl, rfl⟩
  · intro s hs
    simp [initSys] at hs
    subst hs
    intro h
    exact absurd rfl h

theorem pushNav_inv {st : PageState} {pushed : List NavigationState}
    {s : NavigationState} (hp : ∀ x ∈ pushed, navInv x) (hs : navInv s) :
    ∀ x ∈ pushNavigationState st pushed s, navInv x := by
  unfold pushNavigationState
  split
  · exact hp
  · intro x hx
    rcases List.mem_append.mp hx with h | h
    · exact hp x h
    · simp at h
      subst h
      exact hs

theorem handleBookClick_shape (fetch : FetchNote) (vault : VaultStructure)
    (book : String) (st : PageState) (pushed : List NavigationState) :
    (handleBookClick fetch vault book st pushed).1.viewLevel = ViewLevel.note ∧
    (handleBookClick fetch vault book st pushed).1.noteHistory = [] := by
  unfold handleBookClick
  dsimp only
  repeat' split
  all_goals exact ⟨rfl, rfl⟩

theorem handleBookClick_pushed_inv (fetch : FetchNote) (vault : VaultStructure)
    (book : String) (st : PageState) (pushed : List NavigationState)
    (hp : ∀ x ∈ pushed, navInv x) :
    ∀ x ∈ (handleBookClick fetch vault book st pushed).2, navInv x := by
  unfold handleBookClick
  dsimp only
  repeat' split
  any_goals exact hp
  exact pushNav_inv hp (fun _ => rfl)

theorem navigateToNote_shape (fetch : FetchNote) (id : String)
    (st : PageState) (pushed : List NavigationState) :
    (navigateToNote fetch id st pushed).1.viewLevel = st.viewLevel := by
  unfold navigateToNote
  dsimp only
  split <;> rfl

theorem navigateToNote_pushed_inv (fetch : FetchNote) (id : String)
    (st : PageState) (pushed : List NavigationState)
    (hp : ∀ x ∈ pushed, navInv x) :
    ∀ x ∈ (navigateToNote fetch id st pushed).2, navInv x := by
  unfold navigateToNote
  dsimp only
  split
  · exact hp
  · exact pushNav_inv hp (fun _ => rfl)

theorem searchResultClick_shape (fetch : FetchNote) (m : NoteMetadata)
    (st : PageState) (pushed : List NavigationState) :
    (searchResultClick fetch m st pushed).1.viewLevel = ViewLevel.note ∧
    (searchResultClick fetch m st pushed).1.noteHistory = [] := by
  unfold searchResultClick
  dsimp only
  split <;> exact ⟨rfl, rfl⟩

theorem searchResultClick_pushed_inv (fetch : FetchNote) (m : NoteMetadata)
    (st : PageState) (pushed : List NavigationState)
    (hp : ∀ x ∈ pushed, navInv x) :
    ∀ x ∈ (searchResultClick fetch m st pushed).2, navInv x := by
  unfold searchResultClick
  dsimp only
  split
  · exact hp
  · exact pushNav_inv hp (fun _ => rfl)

theorem handlePopState_viewLevel (fetch : FetchNote) (s : NavigationState)
    (st : PageState) :
    (handlePopState fetch (some s) st).viewLevel = s.viewLevel := by
  unfold handlePopState
  dsimp only
  repeat' split
  all_goals rfl

theorem handlePopState_pageInv (fetch : FetchNote)
    (navSt : Option NavigationState) (st : PageState)
    (hns : ∀ s, navSt = some s → navInv s) :
    pageInv (handlePopState fetch navSt st) := by
  cases navSt with
  | none => exact fun _ => ⟨rfl, rfl⟩
  | some s =>
    cases hnid : s.noteId with
    | none =>
      intro _
      unfold handlePopState
      dsimp only
      rw [hnid]
      exact ⟨rfl, rfl⟩
    | some nid =>
      have hvl : s.viewLevel = ViewLevel.note :=
        hns s rfl (by simp [hnid])
      intro hv
      exact absurd ((handlePopState_viewLevel fetch s st).trans hvl) hv

theorem step_inv (sys : Sys) (e : Event) (h : sysInv sys) : sysInv (step sys e) := by
  obtain ⟨hpage, hpush⟩ := h
  cases e with
  | categoryClick cat =>
    exact ⟨fun _ => ⟨rfl, rfl⟩, pushNav_inv hpush (fun hc => absurd rfl hc)⟩
  | bookClick book fetch =>
    refine ⟨?_, handleBookClick_pushed_inv fetch sys.vault book sys.page sys.pushed hpush⟩
    intro hv
    exact absurd (handleBookClick_shape fetch sys.vault book sys.page sys.pushed).1 hv
  | navClick id fetch =>
    by_cases hg : sys.page.viewLevel = ViewLevel.note
    · simp only [step, hg, if_true]
      refine ⟨?_, navigateToNote_pushed_inv fetch id sys.page sys.pushed hpush⟩
      intro hv
      exact absurd ((navigateToNote_shape fetch id sys.page sys.pushed).trans hg) hv
    · simp only [step, hg, if_false]
      exact ⟨hpage, hpush⟩
  | wikiClick linkText results fetch =>
    by_cases hg : sys.page.viewLevel = ViewLevel.note
    · simp only [step, hg, if_true]
      cases hr : resolveWikiLink results linkText
          (sys.page.currentNote.bind (fun n => n.book)) with
      | none =>
        simp only [handleWikiLinkClick, hr]
        exact ⟨hpage, hpush⟩
      | some m =>
        simp only [handleWikiLinkClick, hr]
        refine ⟨?_, navigateToNote_pushed_inv fetch m.id sys.page sys.pushed hpush⟩
        intro hv
        exact absurd ((navigateToNote_shape fetch m.id sys.page sys.pushed).trans hg) hv
    · simp only [step, hg, if_false]
      exact ⟨hpage, hpush⟩
  | resultClick m fetch =>
    refine ⟨?_, searchResultClick_pushed_inv fetch m sys.page sys.pushed hpush⟩
    intro hv
    exact absurd (searchResultClick_shape fetch m sys.page sys.pushed).1 hv
  | breadcrumbBooksClick =>
    exact ⟨fun _ => ⟨rfl, rfl⟩, hpush⟩
  | backToCategoriesClick =>
    by_cases hg : sys.page.viewLevel = ViewLevel.books
    · simp only [step, hg, if_true]
      have h0 := hpage (by rw [hg]; intro hc; cases hc)
      exact ⟨fun _ => h0, hpush⟩
    · simp only [step, hg, if_false]
      exact ⟨hpage, hpush⟩
  | resetClick =>
    exact ⟨fun _ => ⟨rfl, rfl⟩, hpush⟩
  | popState i fetch =>
    refine ⟨?_, hpush⟩
    exact handlePopState_pageInv fetch (sys.pushed.get? i) sys.page
      (fun s hs => hpush s (List.get?_mem hs))
  | queryChange q results =>
    refine ⟨?_, hpush⟩
    intro hv
    have hvl : (step sys (Event.queryChange q results)).page.viewLevel =
        sys.page.viewLevel := by
      simp only [step, applySearchQuery]
      split <;> rfl
    have hold : sys.page.viewLevel ≠ ViewLevel.note := fun hc => hv (hvl.trans hc)
    obtain ⟨h1, h2⟩ := hpage hold
    have hh : (step sys (Event.queryChange q results)).page.noteHistory =
        sys.page.noteHistory := by
      simp only [step, applySearchQuery]
      split <;> rfl
    have hcn : (step sys (Event.queryChange q results)).page.currentNote =
        sys.page.currentNote := by
      simp only [step, applySearchQuery]
      split <;> rfl
    exact ⟨hh.trans h1, hcn.trans h2⟩

theorem run_inv (vault : VaultStructure) (es : List Event) :
    sysInv (run vault es) := by
  suffices h : ∀ sys, sysInv sys → sysInv (es.foldl step sys) from
    h _ (initSys_inv vault)
  induction es with
  | nil => exact fun sys h => h
  | cons e es ih => exact fun sys h => ih _ (step_inv sys e h)

/-- C7: in every reachable state of the notes page, the in-memory
history stack is empty whenever the categories or books panel is shown
(equivalently, a non-empty stack implies the note view is active), and
it is empty immediately after entering a book, after selecting a
category, after an explicit reset, and after the breadcrumb return to
the books panel. -/
theorem noteHistory_empty_invariant (vault : VaultStructure) (es : List Event) :
    ((run vault es).page.viewLevel ≠ ViewLevel.note →
      (run vault es).page.noteHistory = []) ∧
    ((run vault es).page.noteHistory ≠ [] →
      (run vault es).page.viewLevel = ViewLevel.note) ∧
    (∀ (book : String) (fetch : FetchNote),
      (step (run vault es) (Event.bookClick book fetch)).page.noteHistory = []) ∧
    (∀ cat : String,
      (step (run vault es) (Event.categoryClick cat)).page.noteHistory = []) ∧
    ((step (run vault es) Event.resetClick).page.noteHistory = []) ∧
    ((step (run vault es) Event.breadcrumbBooksClick).page.noteHistory = []) := by
  have hinv := run_inv vault es
  refine ⟨fun hv => (hinv.1 hv).1, ?_, ?_, fun _ => rfl, rfl, rfl⟩
  · intro hne
    by_contra hv
    exact hne (hinv.1 hv).1
  · intro book fetch
    exact (handleBookClick_shape fetch (run vault es).vault book
      (run vault es).page (run vault es).pushed).2

/-- C7 witness: after drilling into a book and a child note, the
breadcrumb return to books leaves an empty stack, and a concrete run
ending in the books view has an empty stack. -/
theorem noteHistory_empty_invariant_witness :
    (run (fun _ => none) [Event.categoryClick "Science"]).page.noteHistory = [] :=
  (noteHistory_empty_invariant (fun _ => none) [Event.categoryClick "Science"]).1
    (by decide)

/-! ## C1: wiki links render as one unit each, alias-aware only in
`renderInlineContent` -/

theorem matchWikiAt_cons_ne {c : Char} (h : c ≠ '[') (cs : List Char) :
    matchWikiAt (c :: cs) = none := by
  cases cs with
  | nil => rfl
  | cons d ds => simp [matchWikiAt, h]

theorem matchWikiSimpleAt_cons_ne {c : Char} (h : c ≠ '[') (cs : List Char) :
    matchWikiSimpleAt (c :: cs) = none := by
  cases cs with
  | nil => rfl
  | cons d ds => simp [matchWikiSimpleAt, h]

theorem matchWikiAt_linkSource (l : WikiLink) (hl : WFLink l)
    (rest : List Char) :
    matchWikiAt (linkSource l ++ rest) = some (l, rest) := by
  obtain ⟨⟨hne, hall⟩, halias⟩ := hl
  have hne' : l.target.isEmpty = false := by simpa using hne
  cases l with
  | mk target aliasText =>
    simp only at hne' hall
    cases aliasText with
    | none =>
      have hshape : linkSource ⟨target, none⟩ ++ rest =
          '[' :: '[' :: (target ++ (']' :: ']' :: rest)) := by
        simp [linkSource, aliasPart]
      rw [hshape]
      simp only [matchWikiAt, takeWhile_append_all hall,
        dropWhile_append_all hall]
      simp [isTargetChar, hne', List.takeWhile_cons, List.dropWhile_cons]
    | some a =>
      obtain ⟨hane, haall⟩ := halias
      have hane' : a.isEmpty = false := by simpa using hane
      have hshape : linkSource ⟨target, some a⟩ ++ rest =
          '[' :: '[' :: (target ++ ('|' :: (a ++ (']' :: ']' :: rest)))) := by
        simp [linkSource, aliasPart]
      rw [hshape]
      simp only [matchWikiAt, takeWhile_append_all hall,
        dropWhile_append_all hall]
      simp only [List.takeWhile_cons, List.dropWhile_cons]
      simp only [show isTargetChar '|' = false from rfl]
      simp only [Bool.false_eq_true, if_false, List.append_nil, hne',
        Bool.false_eq_true]
      simp only [takeWhile_append_all haall, dropWhile_append_all haall]
      simp [isAliasChar, hane', List.takeWhile_cons, List.dropWhile_cons]

theorem matchWikiSimpleAt_linkSource (l : WikiLink) (hl : WFLink l)
    (rest : List Char) :
    matchWikiSimpleAt (linkSource l ++ rest) = some (innerText l, rest) := by
  obtain ⟨⟨hne, hall⟩, halias⟩ := hl
  have hinner : ∀ c ∈ innerText l, isAliasChar c := by
    intro c hc
    rcases List.mem_append.mp hc with h | h
    · have := hall c h
      simp [isTargetChar] at this
      simp [isAliasChar, this.1]
    · cases hal : l.aliasText with
      | none => rw [hal] at h; simp [aliasPart] at h
      | some a =>
        rw [hal] at h
        simp only [aliasPart] at h
        rcases List.mem_cons.mp h with rfl | h'
        · rfl
        · rw [hal] at halias
          exact halias.2 c h'
  have hinner_ne : innerText l ≠ [] := by
    intro hc
    apply hne
    have := List.append_eq_nil.mp hc
    exact this.1
  have hinner_ne' : (innerText l).isEmpty = false := by simpa using hinner_ne
  have hshape : linkSource l ++ rest =
      '[' :: '[' :: (innerText l ++ (']' :: ']' :: rest)) := by
    simp [linkSource, innerText]
  rw [hshape]
  simp only [matchWikiSimpleAt, takeWhile_append_all hinner,
    dropWhile_append_all hinner]
  simp [isAliasChar, hinner_ne', List.takeWhile_cons, List.dropWhile_cons]

theorem findWikiMatch_append {t : List Char} (h : NoBracket t) (cs : List Char) :
    findWikiMatch (t ++ cs) =
      (findWikiMatch cs).map (fun x => (t ++ x.1, x.2.1, x.2.2)) := by
  induction t with
  | nil =>
    simp only [List.nil_append]
    cases hf : findWikiMatch cs with
    | none => rfl
    | some x => rcases x with ⟨p, l, r⟩; rfl
  | cons c t ih =>
    have hc : c ≠ '[' := h c (List.mem_cons_self _ _)
    have ht : NoBracket t := fun x hx => h x (List.mem_cons_of_mem _ hx)
    simp only [List.cons_append, findWikiMatch, matchWikiAt_cons_ne hc,
      List.append_eq, ih ht]
    cases hf : findWikiMatch cs with
    | none => rfl
    | some x => rcases x with ⟨p, l, r⟩; rfl

theorem findWikiSimple_append {t : List Char} (h : NoBracket t) (cs : List Char) :
    findWikiSimple (t ++ cs) =
      (findWikiSimple cs).map (fun x => (t ++ x.1, x.2.1, x.2.2)) := by
  induction t with
  | nil =>
    simp only [List.nil_append]
    cases hf : findWikiSimple cs with
    | none => rfl
    | some x => rcases x with ⟨p, l, r⟩; rfl
  | cons c t ih =>
    have hc : c ≠ '[' := h c (List.mem_cons_self _ _)
    have ht : NoBracket t := fun x hx => h x (List.mem_cons_of_mem _ hx)
    simp only [List.cons_append, findWikiSimple, matchWikiSimpleAt_cons_ne hc,
      List.append_eq, ih ht]
    cases hf : findWikiSimple cs with
    | none => rfl
    | some x => rcases x with ⟨p, l, r⟩; rfl

theorem findWikiMatch_linkSource (l : WikiLink) (hl : WFLink l)
    (rest : List Char) :
    findWikiMatch (linkSource l ++ rest) = some ([], l, rest) := by
  have hm := matchWikiAt_linkSource l hl rest
  cases hsrc : linkSource l ++ rest with
  | nil => simp [linkSource] at hsrc
  | cons c cs =>
    rw [findWikiMatch, ← hsrc, hm]

theorem findWikiSimple_linkSource (l : WikiLink) (hl : WFLink l)
    (rest : List Char) :
    findWikiSimple (linkSource l ++ rest) = some ([], innerText l, rest) := by
  have hm := matchWikiSimpleAt_linkSource l hl rest
  cases hsrc : linkSource l ++ rest with
  | nil => simp [linkSource] at hsrc
  | cons c cs =>
    rw [findWikiSimple, ← hsrc, hm]

theorem findWikiMatch_assemble_nil {t0 : List Char} (h0 : NoBracket t0) :
    findWikiMatch (assemble t0 []) = none := by
  have h := findWikiMatch_append h0 ([] : List Char)
  simpa [assemble] using h

theorem findWikiSimple_assemble_nil {t0 : List Char} (h0 : NoBracket t0) :
    findWikiSimple (assemble t0 []) = none := by
  have h := findWikiSimple_append h0 ([] : List Char)
  simpa [assemble] using h

theorem findWikiMatch_assemble_cons {t0 : List Char} (h0 : NoBracket t0)
    (l : WikiLink) (hl : WFLink l) (t : List Char)
    (segs : List (WikiLink × List Char)) :
    findWikiMatch (assemble t0 ((l, t) :: segs)) =
      some (t0, l, assemble t segs) := by
  show findWikiMatch (t0 ++ linkSource l ++ assemble t segs) = _
  rw [List.append_assoc, findWikiMatch_append h0,
    findWikiMatch_linkSource l hl]
  simp

theorem findWikiSimple_assemble_cons {t0 : List Char} (h0 : NoBracket t0)
    (l : WikiLink) (hl : WFLink l) (t : List Char)
    (segs : List (WikiLink × List Char)) :
    findWikiSimple (assemble t0 ((l, t) :: segs)) =
      some (t0, innerText l, assemble t segs) := by
  show findWikiSimple (t0 ++ linkSource l ++ assemble t segs) = _
  rw [List.append_assoc, findWikiSimple_append h0,
    findWikiSimple_linkSource l hl]
  simp

theorem scanWikiAux_step (fuel : Nat) (cs p : List Char) (l : WikiLink)
    (r : List Char) (h : findWikiMatch cs = some (p, l, r)) :
    scanWikiAux (fuel + 1) cs =
      (if p.isEmpty then [] else [Piece.raw p]) ++
        Piece.link l :: scanWikiAux fuel r := by
  simp [scanWikiAux, h]

theorem scanWikiSimpleAux_step (fuel : Nat) (cs p inner : List Char)
    (r : List Char) (h : findWikiSimple cs = some (p, inner, r)) :
    scanWikiSimpleAux (fuel + 1) cs =
      (if p.isEmpty then [] else [Piece.raw p]) ++
        Piece.link ⟨inner, none⟩ :: scanWikiSimpleAux fuel r := by
  simp [scanWikiSimpleAux, h]

theorem length_linkSource (l : WikiLink) : 2 ≤ (linkSource l).length := by
  simp [linkSource]

theorem length_assemble_cons (t0 : List Char) (l : WikiLink) (t : List Char)
    (segs : List (WikiLink × List Char)) :
    (assemble t0 ((l, t) :: segs)).length =
      t0.length + (linkSource l).length + (assemble t segs).length := by
  simp [assemble, List.length_append]
  omega

theorem scanWikiAux_assemble :
    ∀ (segs : List (WikiLink × List Char)) (t0 : List Char) (fuel : Nat),
      (assemble t0 segs).length ≤ fuel → NoBracket t0 → WFSegs segs →
      scanWikiAux fuel (assemble t0 segs) = piecesSpec t0 segs := by
  intro segs
  induction segs with
  | nil =>
    intro t0 fuel _ h0 _
    cases fuel with
    | zero => rfl
    | succ n =>
      simp only [scanWikiAux, findWikiMatch_assemble_nil h0]
      rfl
  | cons q segs ih =>
    rcases q with ⟨l, t⟩
    intro t0 fuel hfuel h0 hs
    have hl : WFLink l := (hs (l, t) (List.mem_cons_self _ _)).1
    have ht : NoBracket t := (hs (l, t) (List.mem_cons_self _ _)).2
    have hs' : WFSegs segs := fun q hq => hs q (List.mem_cons_of_mem _ hq)
    have hlen := length_assemble_cons t0 l t segs
    have hls := length_linkSource l
    cases fuel with
    | zero => omega
    | succ n =>
      have hrest : (assemble t segs).length ≤ n := by omega
      rw [scanWikiAux_step n _ _ _ _ (findWikiMatch_assemble_cons h0 l hl t segs),
        ih t n hrest ht hs']
      rfl

theorem scanWikiSimpleAux_assemble :
    ∀ (segs : List (WikiLink × List Char)) (t0 : List Char) (fuel : Nat),
      (assemble t0 segs).length ≤ fuel → NoBracket t0 → WFSegs segs →
      scanWikiSimpleAux fuel (assemble t0 segs) = piecesSpecSimple t0 segs := by
  intro segs
  induction segs with
  | nil =>
    intro t0 fuel _ h0 _
    cases fuel with
    | zero => rfl
    | succ n =>
      simp only [scanWikiSimpleAux, findWikiSimple_assemble_nil h0]
      rfl
  | cons q segs ih =>
    rcases q with ⟨l, t⟩
    intro t0 fuel hfuel h0 hs
    have hl : WFLink l := (hs (l, t) (List.mem_cons_self _ _)).1
    have ht : NoBracket t := (hs (l, t) (List.mem_cons_self _ _)).2
    have hs' : WFSegs segs := fun q hq => hs q (List.mem_cons_of_mem _ hq)
    have hlen := length_assemble_cons t0 l t segs
    have hls := length_linkSource l
    cases fuel with
    | zero => omega
    | succ n =>
      have hrest : (assemble t segs).length ≤ n := by omega
      rw [scanWikiSimpleAux_step n _ _ _ _
          (findWikiSimple_assemble_cons h0 l hl t segs),
        ih t n hrest ht hs']
      rfl

theorem piecesSpec_eq_nil_iff (t0 : List Char)
    (segs : List (WikiLink × List Char)) :
    piecesSpec t0 segs = [] ↔ t0 = [] ∧ segs = [] := by
  cases segs with
  | nil =>
    by_cases h : t0.isEmpty <;>
      simp_all [piecesSpec, List.isEmpty_iff]
  | cons q segs =>
    rcases q with ⟨l, t⟩
    simp [piecesSpec]

theorem piecesSpecSimple_eq_nil_iff (t0 : List Char)
    (segs : List (WikiLink × List Char)) :
    piecesSpecSimple t0 segs = [] ↔ t0 = [] ∧ segs = [] := by
  cases segs with
  | nil =>
    by_cases h : t0.isEmpty <;>
      simp_all [piecesSpecSimple, List.isEmpty_iff]
  | cons q segs =>
    rcases q with ⟨l, t⟩
    simp [piecesSpecSimple]

theorem piecesSpec_links :
    ∀ (segs : List (WikiLink × List Char)) (t0 : List Char),
      ((piecesSpec t0 segs).map pieceToInlineContent).filterMap inlineLink =
        segs.map (fun p => (p.1.target, p.1.aliasText.getD p.1.target))
  | [], t0 => by
    by_cases h : t0.isEmpty <;>
      simp [piecesSpec, h, pieceToInlineContent, inlineLink]
  | (l, t) :: segs, t0 => by
    by_cases h : t0.isEmpty <;>
      simp [piecesSpec, h, pieceToInlineContent, inlineLink,
        piecesSpec_links segs t]

theorem piecesSpecSimple_links :
    ∀ (segs : List (WikiLink × List Char)) (t0 : List Char),
      ((piecesSpecSimple t0 segs).map pieceToInlinePage).filterMap inlineLink =
        segs.map (fun p => (innerText p.1, innerText p.1))
  | [], t0 => by
    by_cases h : t0.isEmpty <;>
      simp [piecesSpecSimple, h, pieceToInlinePage, inlineLink]
  | (l, t) :: segs, t0 => by
    by_cases h : t0.isEmpty <;>
      simp [piecesSpecSimple, h, pieceToInlinePage, inlineLink,
        piecesSpecSimple_links segs t]

theorem piecesSpec_html :
    ∀ (segs : List (WikiLink × List Char)) (t0 : List Char) (h : List Char),
      Inline.htmlText h ∈ (piecesSpec t0 segs).map pieceToInlineContent →
      ∃ t, t ∈ t0 :: segs.map Prod.snd ∧ h = formatInlineTextL t
  | [], t0, h => by
    intro hmem
    by_cases he : t0.isEmpty
    · simp only [piecesSpec, he, if_true, List.map_nil] at hmem
      cases hmem
    · simp [piecesSpec, he, pieceToInlineContent] at hmem
      exact ⟨t0, by simp, hmem⟩
  | (l, t) :: segs, t0, h => by
    intro hmem
    simp only [piecesSpec, List.map_append, List.map_cons] at hmem
    rcases List.mem_append.mp hmem with hmem | hmem
    · by_cases he : t0.isEmpty
      · rw [if_pos he] at hmem
        simp at hmem
      · rw [if_neg he] at hmem
        simp [pieceToInlineContent] at hmem
        exact ⟨t0, by simp, hmem⟩
    · rcases List.mem_cons.mp hmem with hmem | hmem
      · simp [pieceToInlineContent] at hmem
      · obtain ⟨t', ht', rfl⟩ := piecesSpec_html segs t h hmem
        refine ⟨t', ?_, rfl⟩
        have ht'' : t' ∈ ((l, t) :: segs).map Prod.snd := by
          simpa using ht'
        exact List.mem_cons_of_mem _ ht''

/-- C1 counterexample: the note-page renderer `renderInline` (cited by
the claim) does not honor aliases: `[[Atomic Habits|this book]]`
renders one link unit whose display text is the whole inner text
`Atomic Habits|this book`, not the alias `this book`. -/
theorem renderInline_alias_not_honored :
    renderInline ("[[Atomic Habits|this book]]".data) =
      [Inline.linkButton ("Atomic Habits|this book".data)
        ("Atomic Habits|this book".data)] ∧
    ("Atomic Habits|this book".data : List Char) ≠ "this book".data := by
  constructor
  · decide
  · decide

/-- C1 (amended): for every note text containing `N` wiki-links (an
alternation of bracket-free segments and well-formed `[[target]]` /
`[[target|alias]]` links), `renderInlineContent` produces exactly `N`
interactive link units, in order, each displaying the alias when present
and the raw target otherwise; every formatted text span it emits is the
bold/italic/inline-code formatting of one of the segments outside the
link matches; and `renderInline` also produces exactly those `N` link
units, but displays the raw inner text (including any `|alias` part)
instead of honoring the alias. -/
theorem renderer_wiki_link_units (t0 : List Char)
    (segs : List (WikiLink × List Char))
    (h0 : NoBracket t0) (hs : WFSegs segs) :
    ((renderInlineContent (assemble t0 segs)).filterMap inlineLink =
      segs.map (fun p => (p.1.target, p.1.aliasText.getD p.1.target))) ∧
    (((renderInlineContent (assemble t0 segs)).filterMap inlineLink).length =
      segs.length) ∧
    (∀ h, Inline.htmlText h ∈ renderInlineContent (assemble t0 segs) →
      ∃ t, t ∈ t0 :: segs.map Prod.snd ∧ h = formatInlineTextL t) ∧
    ((renderInline (assemble t0 segs)).filterMap inlineLink =
      segs.map (fun p => (innerText p.1, innerText p.1))) := by
  have hrc : renderInlineContent (assemble t0 segs) =
      (if (piecesSpec t0 segs).isEmpty then [Piece.raw (assemble t0 segs)]
       else piecesSpec t0 segs).map pieceToInlineContent := by
    simp only [renderInlineContent,
      scanWikiAux_assemble segs t0 (assemble t0 segs).length le_rfl h0 hs]
  have hrp : renderInline (assemble t0 segs) =
      (if (piecesSpecSimple t0 segs).isEmpty then [Piece.raw (assemble t0 segs)]
       else piecesSpecSimple t0 segs).map pieceToInlinePage := by
    simp only [renderInline,
      scanWikiSimpleAux_assemble segs t0 (assemble t0 segs).length le_rfl h0 hs]
  by_cases hemp : (piecesSpec t0 segs).isEmpty
  · obtain ⟨ht0, hsegs⟩ :=
      (piecesSpec_eq_nil_iff t0 segs).mp (List.isEmpty_iff.mp hemp)
    subst ht0
    subst hsegs
    refine ⟨by decide, by decide, ?_, by decide⟩
    intro h hmem
    have hre : renderInlineContent (assemble [] []) =
        [Inline.htmlText (formatInlineTextL [])] := rfl
    rw [hre] at hmem
    simp at hmem
    exact ⟨[], by simp, hmem⟩
  · have hemp' : ¬ (piecesSpecSimple t0 segs).isEmpty := by
      intro hc
      exact hemp (List.isEmpty_iff.mpr ((piecesSpec_eq_nil_iff t0 segs).mpr
        ((piecesSpecSimple_eq_nil_iff t0 segs).mp (List.isEmpty_iff.mp hc))))
    refine ⟨?_, ?_, ?_, ?_⟩
    · rw [hrc, if_neg hemp]
      exact piecesSpec_links segs t0
    · rw [hrc, if_neg hemp, piecesSpec_links segs t0, List.length_map]
    · rw [hrc, if_neg hemp]
      exact piecesSpec_html segs t0
    · rw [hrp, if_neg hemp']
      exact piecesSpecSimple_links segs t0

/-- C1 witness: a concrete two-link text, one aliased link and one
plain link, renders exactly two link units with the alias honored by
`renderInlineContent`. -/
theorem renderer_wiki_link_units_witness :
    (renderInlineContent (assemble ("See ".data)
        [(⟨"Atomic Habits".data, some ("this book".data)⟩, " and ".data),
         (⟨"Deep Work".data, none⟩, ".".data)])).filterMap inlineLink =
      [("Atomic Habits".data, "this book".data),
       ("Deep Work".data, "Deep Work".data)] :=
  (renderer_wiki_link_units ("See ".data)
      [(⟨"Atomic Habits".data, some ("this book".data)⟩, " and ".data),
       (⟨"Deep Work".data, none⟩, ".".data)]
      (by decide) (by decide)).1

end Site
